import Mathlib

/-!
Shallow embedding of the payment-verification and plan-upgrade core of the
clicksurveydash1 repository, together with proofs settling the frozen claims
about its specification.

Sources embedded:
- `MpesaVerifier` (`verifyMessage`, `extractMessageDetails`) from the
  M-Pesa verification module;
- `PlanUpgradeService` (`getPlanByAmount`, `validateUpgrade`,
  `processPlanUpgrade`) from the plan-upgrade service;
- `MessageProcessor` (`extractPaymentInfo`, `extractPhoneNumber`) from the
  auto-paste message processor.

Modelling conventions:
- JavaScript strings are Lean `String`s; all character-level work happens on
  `List Char`.  The case-insensitive regexes are embedded as hand-rolled
  matchers over `List Char` that follow the JS backtracking semantics of the
  concrete patterns appearing in the source (leftmost match, greedy/lazy
  quantifiers, ordered alternation).  JS `\s`, `\d`, `[A-Z]`, `[A-Z0-9]`
  (with the `i` flag) are modelled by `Char.isWhitespace`, `Char.isDigit`,
  `Char.isAlpha`, `Char.isAlphanum` (the source data is ASCII).
- `parseFloat(plan.price)` is modelled by giving plans a rational `price`
  field directly (the tier prices are decimal literals); payment amounts are
  rationals as well.
- JS `Array.prototype.sort` with comparator `priceA - priceB` is a stable
  ascending sort, modelled by `List.insertionSort`.
- The JS falsy-string test `!message` holds exactly for the empty string.
- `try`/`catch` in `processPlanUpgrade` is modelled by running the try-block
  as an `Except`-valued body and mapping any error to the generic failure
  result, exactly as the catch clause does.
- Fields produced non-deterministically in the source (`Date.now()`-based
  transaction ids, `new Date()` timestamps) are omitted from the embedded
  records; no claim mentions them.
-/

/-! ## Character-level helpers shared by the embedded regex matchers -/

/-- Case-insensitive character equality (ASCII case folding, as in the
JS `i` regex flag on the ASCII patterns of the source). -/
def ciEq (a b : Char) : Bool := a.toUpper == b.toUpper

/-- Match a literal pattern (first argument) case-insensitively at the head
of the input, returning the rest of the input on success. -/
def stripCI : List Char → List Char → Option (List Char)
  | [], s => some s
  | _ :: _, [] => none
  | l :: lt, c :: ct => if ciEq l c then stripCI lt ct else none

/-- `sub` occurs (case-sensitively) as a contiguous run inside `s`
(JS `String.prototype.includes`). -/
def charsContain (sub : List Char) : List Char → Bool
  | [] => sub.isPrefixOf []
  | c :: t => sub.isPrefixOf (c :: t) || charsContain sub t

/-- Drop leading and trailing whitespace (JS `String.prototype.trim`,
restricted to ASCII whitespace). -/
def trimChars (l : List Char) : List Char :=
  ((l.dropWhile Char.isWhitespace).reverse.dropWhile Char.isWhitespace).reverse

/-- Run a match-at-position function at every start position, left to right,
returning the first success: this is how a JS regex without anchors scans the
subject string in `String.prototype.match`. -/
def scanOpt {α : Type} (f : List Char → Option α) : List Char → Option α
  | [] => f []
  | c :: t =>
    match f (c :: t) with
    | some r => some r
    | none => scanOpt f t

/-- Take exactly `n` characters satisfying `p` from the front
(the regex bounded repetition `p{n}`). -/
def takeExact (p : Char → Bool) : Nat → List Char → Option (List Char × List Char)
  | 0, s => some ([], s)
  | _ + 1, [] => none
  | n + 1, c :: t =>
    if p c then (takeExact p n t).map (fun pr => (c :: pr.1, pr.2)) else none

/-- Backtracking bounded repetition of `\d` followed by a continuation: the
counts are tried in the given order (greedy regexes list larger counts
first), and the first count for which both the digits and the continuation
succeed wins. -/
def tryDigitCounts (k : List Char → Option (List Char)) :
    List Nat → List Char → Option (List Char)
  | [], _ => none
  | n :: ns, s =>
    match takeExact Char.isDigit n s with
    | some pr =>
      match k pr.2 with
      | some r => some r
      | none => tryDigitCounts k ns s
    | none => tryDigitCounts k ns s

/-! ## MpesaVerifier (mpesaVerification module) -/

/-- `MpesaVerificationResult.details`: the extracted-detail record.  All
fields other than the marker flag are optional; an absent field is `none`. -/
structure MpesaDetails where
  containsRequiredText : Bool
  merchantName : Option String := none
  amount : Option String := none
  transactionId : Option String := none
  timestamp : Option String := none
deriving DecidableEq

/-- Result record of `MpesaVerifier.verifyMessage`. -/
structure MpesaVerificationResult where
  isValid : Bool
  message : String
  details : MpesaDetails
deriving DecidableEq

/-- `MpesaVerifier.REQUIRED_MERCHANT_TEXT`. -/
def requiredMerchantText : String := "VEDACOM 4 SOLUTIONS"

/-- Matcher for the amount regex of `extractMessageDetails`:
`KSH\s*([\d,]+\.?\d*)` with the `i` flag, tried at one start position.
Nothing follows the capture, so the greedy quantifiers never backtrack. -/
def matchAmountAt (s : List Char) : Option String :=
  match stripCI "KSH".toList s with
  | none => none
  | some r =>
    let r1 := r.dropWhile Char.isWhitespace
    let ds := r1.takeWhile (fun c => c.isDigit || c == ',')
    if ds.isEmpty then none
    else
      match r1.drop ds.length with
      | '.' :: r2 => some (String.mk (ds ++ '.' :: r2.takeWhile Char.isDigit))
      | _ => some (String.mk ds)

/-- Matcher for the transaction-id regex of `extractMessageDetails`:
`(?:TXN\s*ID|TRANSACTION\s*ID)[:\s]*([A-Z0-9]+)` with the `i` flag, at one
start position.  The two alternatives begin with distinct letters, so at a
given position at most one of them can apply; backtracking the `[:\s]*` run
can never enable the `[A-Z0-9]+` capture, so the greedy run is exact. -/
def matchTxnAt (s : List Char) : Option String :=
  let afterKey : Option (List Char) :=
    match stripCI "TXN".toList s with
    | some r => stripCI "ID".toList (r.dropWhile Char.isWhitespace)
    | none =>
      match stripCI "TRANSACTION".toList s with
      | some r => stripCI "ID".toList (r.dropWhile Char.isWhitespace)
      | none => none
  match afterKey with
  | none => none
  | some r =>
    let r1 := r.dropWhile (fun c => c == ':' || c.isWhitespace)
    let tok := r1.takeWhile Char.isAlphanum
    if tok.isEmpty then none else some (String.mk tok)

/-- Matcher for the timestamp regex of `extractMessageDetails`:
`(\d{1,2}\/\d{1,2}\/\d{2,4}\s+\d{1,2}:\d{2}\s*(?:AM|PM)?)` with the `i`
flag, at one start position.  The capture is the whole matched region, so it
is recovered from the length of the remaining suffix. -/
def matchTimestampAt (s : List Char) : Option String :=
  let tail : Option (List Char) :=
    tryDigitCounts (fun r1 =>
      match r1 with
      | '/' :: r2 =>
        tryDigitCounts (fun r3 =>
          match r3 with
          | '/' :: r4 =>
            tryDigitCounts (fun r5 =>
              match r5 with
              | c :: r6 =>
                if c.isWhitespace then
                  tryDigitCounts (fun r7 =>
                    match r7 with
                    | ':' :: r8 =>
                      match takeExact Char.isDigit 2 r8 with
                      | some pr =>
                        let r9 := pr.2.dropWhile Char.isWhitespace
                        match stripCI "AM".toList r9 with
                        | some r10 => some r10
                        | none =>
                          match stripCI "PM".toList r9 with
                          | some r10 => some r10
                          | none => some r9
                      | none => none
                    | _ => none) [2, 1] (r6.dropWhile Char.isWhitespace)
                else none
              | [] => none) [4, 3, 2] r4
          | _ => none) [2, 1] r2
      | _ => none) [2, 1] s
  tail.map (fun rest => String.mk (s.take (s.length - rest.length)))

/-- Character class `[A-Z\s]` under the `i` flag. -/
def isMerchantChar (c : Char) : Bool := c.isAlpha || c.isWhitespace

/-- Character class `[:\s]`. -/
def isColonWs (c : Char) : Bool := c == ':' || c.isWhitespace

/-- The terminator group `(?:\s*ON|\s*\d|$)` of the merchant-name regex,
as a test on the suffix following the candidate capture. -/
def merchantStop (r : List Char) : Bool :=
  (stripCI "ON".toList (r.dropWhile Char.isWhitespace)).isSome ||
  (match r.dropWhile Char.isWhitespace with
   | c :: _ => c.isDigit
   | [] => false) ||
  r.isEmpty

/-- Lazy repetition `cls+?` followed by the terminator test `stop`: grow the
capture one character at a time and stop at the first length whose following
suffix passes `stop`, as a lazy quantifier does. -/
def lazyCap (cls : Char → Bool) (stop : List Char → Bool) : List Char → Option (List Char)
  | [] => none
  | c :: t =>
    if cls c then
      if stop t then some [c]
      else
        match lazyCap cls stop t with
        | some cap => some (c :: cap)
        | none => none
    else none

/-- Capture `([A-Z\s]+?)(?:\s*ON|\s*\d|$)` at the given suffix. -/
def merchantCapAt (r : List Char) : Option (List Char) :=
  lazyCap isMerchantChar merchantStop r

/-- Greedy `[:\s]*` with backtracking: try dropping `n` characters first,
then fewer, until the rest of the pattern succeeds. -/
def merchantDrops (r : List Char) : Nat → Option (List Char)
  | 0 => merchantCapAt r
  | n + 1 =>
    match merchantCapAt (r.drop (n + 1)) with
    | some cap => some cap
    | none => merchantDrops r n

/-- Matcher for the merchant-name regex of `extractMessageDetails`:
`(?:TO|PAID\s*TO)[:\s]*([A-Z\s]+?)(?:\s*ON|\s*\d|$)` with the `i` flag, at
one start position.  The two alternatives begin with distinct letters, so at
most one applies at a given position. -/
def matchMerchantAt (s : List Char) : Option (List Char) :=
  let afterKey : Option (List Char) :=
    match stripCI "TO".toList s with
    | some r => some r
    | none =>
      match stripCI "PAID".toList s with
      | some r => stripCI "TO".toList (r.dropWhile Char.isWhitespace)
      | none => none
  match afterKey with
  | none => none
  | some r => merchantDrops r (r.takeWhile isColonWs).length

/-- `MpesaVerifier.extractMessageDetails`: run the four field regexes over
the original (non-normalized) message; a field whose pattern does not match
is simply absent.  The merchant capture is trimmed, as in the source. -/
def extractMessageDetails (message : String) : MpesaDetails :=
  { containsRequiredText := true
    amount := scanOpt matchAmountAt message.toList
    transactionId := scanOpt matchTxnAt message.toList
    timestamp := scanOpt matchTimestampAt message.toList
    merchantName :=
      (scanOpt matchMerchantAt message.toList).map
        (fun cap => String.mk (trimChars cap)) }

/-- The marker test of `verifyMessage`: uppercase and trim the message, then
check containment of the uppercased required merchant text. -/
def containsMarker (message : String) : Bool :=
  charsContain (requiredMerchantText.toList.map Char.toUpper)
    (trimChars (message.toList.map Char.toUpper))

/-- `MpesaVerifier.verifyMessage`.  The `!message` guard of the source holds
exactly for the empty string (the input is statically a string). -/
def verifyMessage (message : String) : MpesaVerificationResult :=
  if message = "" then
    ⟨false, "Invalid message format", ⟨false, none, none, none, none⟩⟩
  else if containsMarker message then
    ⟨true, "Payment message verified successfully", extractMessageDetails message⟩
  else
    ⟨false, "Invalid payment message - merchant verification failed",
      ⟨false, none, none, none, none⟩⟩

/-! ## PlanUpgradeService (planUpgradeService module) -/

/-- A survey plan tier.  The source stores `price` as a decimal string and
reads it only through `parseFloat`; it is modelled here directly as the
parsed rational value.  The remaining fields of the `SurveyPlan` interface
(`dailySurvey`, `monthlyIncome`, `dailyIncome`, `earningPerSurvey`,
`minimumWithdrawal`, `description`, `features`) are never read by the
verified logic and are omitted. -/
structure SurveyPlan where
  planName : String
  price : Rat
deriving DecidableEq

/-- Price order on plans, the key of the JS comparator
`(a, b) => parseFloat(a.price) - parseFloat(b.price)`. -/
def priceLE (a b : SurveyPlan) : Prop := a.price ≤ b.price

instance : DecidableRel priceLE :=
  fun a b => inferInstanceAs (Decidable (a.price ≤ b.price))

instance : IsTotal SurveyPlan priceLE := ⟨fun a b => le_total a.price b.price⟩

instance : IsTrans SurveyPlan priceLE := ⟨fun _ _ _ h₁ h₂ => le_trans h₁ h₂⟩

/-- The paid plans in ascending price order: filter out non-positive prices,
then sort ascending (JS sort with a subtraction comparator is stable and
ascending, modelled by a stable insertion sort). -/
def sortedPaidPlans (availablePlans : List SurveyPlan) : List SurveyPlan :=
  List.insertionSort priceLE
    (availablePlans.filter fun plan => decide (0 < plan.price))

/-- `PlanUpgradeService.getPlanByAmount`: exact price match first, else the
first paid plan (ascending) whose price is at least the amount, else the
highest-priced paid plan, else `none`.  `getLast?` is the JS
`paidPlans.length > 0 ? paidPlans[paidPlans.length - 1] : null`. -/
def getPlanByAmount (amount : Rat) (availablePlans : List SurveyPlan) :
    Option SurveyPlan :=
  let paidPlans := sortedPaidPlans availablePlans
  match paidPlans.find? fun plan => decide (plan.price = amount) with
  | some exactMatch => some exactMatch
  | none =>
    match paidPlans.find? fun plan => decide (amount ≤ plan.price) with
    | some higherPlan => some higherPlan
    | none => paidPlans.getLast?

/-- Spec-side restatement of the Plan Resolver algorithm, written from the
spec's numbered steps (filter to positive prices, sort ascending, exact
match, else first tier with price at least the amount, else highest-priced
tier, absent when the filtered set is empty), for refinement comparison with
`getPlanByAmount`. -/
def resolveByAmountSpec (amount : Rat) (tiers : List SurveyPlan) :
    Option SurveyPlan :=
  let paid := List.insertionSort priceLE (tiers.filter fun t => decide (0 < t.price))
  if paid.isEmpty then none
  else
    match paid.find? fun t => decide (t.price = amount) with
    | some exact => some exact
    | none =>
      match paid.find? fun t => decide (amount ≤ t.price) with
      | some closestHigher => some closestHigher
      | none => paid.getLast?

/-- Result record of `validateUpgrade`. -/
structure UpgradeValidation where
  isValid : Bool
  message : String
deriving DecidableEq

/-- `PlanUpgradeService.validateUpgrade`.  The source compares
`currentPrice > targetPrice`, written here as `targetPlan.price <
currentPlan.price`. -/
def validateUpgrade (currentPlanName targetPlanName : String)
    (availablePlans : List SurveyPlan) : UpgradeValidation :=
  match availablePlans.find? (fun p => p.planName == currentPlanName),
        availablePlans.find? (fun p => p.planName == targetPlanName) with
  | some currentPlan, some targetPlan =>
    if targetPlan.price < currentPlan.price then
      ⟨false, "Cannot downgrade to a lower plan"⟩
    else
      ⟨true, "Upgrade validated successfully"⟩
  | _, _ => ⟨false, "Invalid plan selection"⟩

/-- Result record of `processPlanUpgrade`. -/
structure PlanUpgradeResult where
  success : Bool
  message : String
  newPlan : Option SurveyPlan := none
  oldPlan : Option String := none
deriving DecidableEq

/-- The try-block of `PlanUpgradeService.processPlanUpgrade`, as an
`Except`-valued computation: a thrown JS error would surface as
`Except.error`.  Every operation the block performs is total, so the body
only ever returns `Except.ok`. -/
def processPlanUpgradeBody (_userId : String) (verifiedAmount : Rat)
    (availablePlans : List SurveyPlan) : Except String PlanUpgradeResult :=
  match getPlanByAmount verifiedAmount availablePlans with
  | none => Except.ok ⟨false, "No plan found for the verified amount", none, none⟩
  | some targetPlan =>
    let currentPlanName := "Starter"
    let validation := validateUpgrade currentPlanName targetPlan.planName availablePlans
    if validation.isValid then
      Except.ok ⟨true, "Plan successfully upgraded to " ++ targetPlan.planName,
        some targetPlan, some currentPlanName⟩
    else
      Except.ok ⟨false, validation.message, none, none⟩

/-- The catch clause of `processPlanUpgrade`: any error raised by the body
is converted into the generic failure result. -/
def catchToResult (body : Except String PlanUpgradeResult) : PlanUpgradeResult :=
  match body with
  | Except.ok r => r
  | Except.error _ => ⟨false, "Failed to process plan upgrade", none, none⟩

/-- `PlanUpgradeService.processPlanUpgrade`: the try-block wrapped in the
catch clause. -/
def processPlanUpgrade (userId : String) (verifiedAmount : Rat)
    (availablePlans : List SurveyPlan) : PlanUpgradeResult :=
  catchToResult (processPlanUpgradeBody userId verifiedAmount availablePlans)

/-! ## MessageProcessor (messageProcessor module) -/

/-- Payment information extracted by `MessageProcessor.extractPaymentInfo`.
The source also fills a synthetic `transactionId` (from `Date.now()` and
`Math.random()`) and a `timestamp` (`new Date()`); both are
non-deterministic and are omitted from the deterministic model. -/
structure MpesMessageInfo where
  amount : Nat
  phoneNumber : String
  isValid : Bool
deriving DecidableEq

/-- `correctTillNumber`: the fixed expected till number of
`extractPaymentInfo` ("from plan.json"). -/
def correctTillNumber : String := "3566188"

/-- The amount capture `Ksh(\d+(?:\.\d{2})?)` shared by the four templates,
at one start position.  Both alternatives of the optional fraction group are
returned, greedy (with the fraction) first, so that the caller can backtrack
into the option when the rest of the template fails.  Backtracking `\d+`
itself can never help: after giving back a digit the next character is a
digit, which neither `\.` nor `\s` accepts. -/
def kshAmountCands (s : List Char) : List (List Char × List Char) :=
  match stripCI "KSH".toList s with
  | none => []
  | some r =>
    let ds := r.takeWhile Char.isDigit
    if ds.isEmpty then []
    else
      let r1 := r.drop ds.length
      let withFrac : List (List Char × List Char) :=
        match r1 with
        | '.' :: r2 =>
          match takeExact Char.isDigit 2 r2 with
          | some pr => [(ds ++ '.' :: pr.1, pr.2)]
          | none => []
        | _ => []
      withFrac ++ [(ds, r1)]

/-- Return the first element on which `f` succeeds (ordered alternation). -/
def findFirstSome {α β : Type} (f : α → Option β) : List α → Option β
  | [] => none
  | a :: t =>
    match f a with
    | some b => some b
    | none => findFirstSome f t

/-- A run of literal words, each preceded by `\s+`, matched
case-insensitively.  Each word starts with a non-whitespace character, so
the greedy `\s+` never needs to backtrack. -/
def stripWords : List String → List Char → Option (List Char)
  | [], r => some r
  | w :: ws, r =>
    match r with
    | [] => none
    | c :: t =>
      if c.isWhitespace then
        match stripCI w.toList (t.dropWhile Char.isWhitespace) with
        | some r2 => stripWords ws r2
        | none => none
      else none

/-- The till-number capture `\s+(\d+)` ending each template. -/
def tillAfter : List Char → Option String
  | [] => none
  | c :: t =>
    if c.isWhitespace then
      let r := t.dropWhile Char.isWhitespace
      let ds := r.takeWhile Char.isDigit
      if ds.isEmpty then none else some (String.mk ds)
    else none

/-- Common shape of the four templates after any literal prefix:
`Ksh<amount>` then the given `\s+`-separated words then `\s+(\d+)`, at one
start position; returns (amount capture, till capture). -/
def tillTemplateAt (words : List String) (s : List Char) : Option (String × String) :=
  findFirstSome
    (fun ar =>
      match stripWords words ar.2 with
      | some r2 => (tillAfter r2).map (fun till => (String.mk ar.1, till))
      | none => none)
    (kshAmountCands s)

/-- Template 1: `Ksh(\d+(?:\.\d{2})?)\s+sent\s+to\s+Till\s+Number\s+(\d+)`
with the `i` flag, at one start position. -/
def pattern1At (s : List Char) : Option (String × String) :=
  tillTemplateAt ["sent", "to", "Till", "Number"] s

/-- Template 2: `Ksh(\d+(?:\.\d{2})?)\s+paid\s+to\s+(\d+)` with the `i`
flag, at one start position. -/
def pattern2At (s : List Char) : Option (String × String) :=
  tillTemplateAt ["paid", "to"] s

/-- Template 3: `Confirmed\.\s*Ksh(\d+(?:\.\d{2})?)\s+sent\s+to\s+(\d+)`
with the `i` flag, at one start position. -/
def pattern3At (s : List Char) : Option (String × String) :=
  match stripCI "CONFIRMED.".toList s with
  | some r => tillTemplateAt ["sent", "to"] (r.dropWhile Char.isWhitespace)
  | none => none

/-- Template 4: `Ksh(\d+(?:\.\d{2})?)\s+has\s+been\s+sent\s+to\s+(\d+)`
with the `i` flag, at one start position. -/
def pattern4At (s : List Char) : Option (String × String) :=
  tillTemplateAt ["has", "been", "sent", "to"] s

/-- The four template matchers, in the order of the source's `patterns`
array. -/
def mpesaPatterns : List (List Char → Option (String × String)) :=
  [pattern1At, pattern2At, pattern3At, pattern4At]

/-- Decimal digits to a natural number. -/
def digitsToNat (l : List Char) : Nat :=
  l.foldl (fun acc c => acc * 10 + (c.toNat - 48)) 0

/-- `Math.round(parseFloat(match[1]))` for an amount capture of the shape
`\d+(\.\d{2})?`: round half up on the two-digit fraction. -/
def parseRoundAmount (s : String) : Nat :=
  let l := s.toList
  let intPart := l.takeWhile Char.isDigit
  let n := digitsToNat intPart
  match l.drop intPart.length with
  | '.' :: fd => if 50 ≤ digitsToNat (fd.takeWhile Char.isDigit) then n + 1 else n
  | _ => n

/-- The phone-number regex `(?:\+254|0)?7\d{8}` of
`MessageProcessor.extractPhoneNumber`, at one start position.  The optional
prefix alternatives begin with distinct characters; if a prefix matches but
the core `7\d{8}` fails after it, the empty-prefix alternative also fails
(the position starts with `+` or `0`, not `7`). -/
def phoneAt (s : List Char) : Option String :=
  let core : List Char → List Char → Option String := fun pre r =>
    match r with
    | '7' :: rest =>
      (takeExact Char.isDigit 8 rest).map (fun pr => String.mk (pre ++ '7' :: pr.1))
    | _ => none
  match s with
  | '+' :: '2' :: '5' :: '4' :: r =>
    match core ['+', '2', '5', '4'] r with
    | some x => some x
    | none => core [] s
  | '0' :: r =>
    match core ['0'] r with
    | some x => some x
    | none => core [] s
  | _ => core [] s

/-- `MessageProcessor.extractPhoneNumber`: first phone-pattern match,
defaulting to the literal `"Unknown"`. -/
def extractPhoneNumber (message : String) : String :=
  match scanOpt phoneAt message.toList with
  | some p => p
  | none => "Unknown"

/-- The `for (const pattern of patterns)` loop of `extractPaymentInfo`: try
each template in order; on a textual match, return payment info only when
the captured till number equals the expected one, otherwise fall through to
the next template (the source's `if` has no early exit on mismatch). -/
def extractLoop (message : String) :
    List (List Char → Option (String × String)) → Option MpesMessageInfo
  | [] => none
  | p :: ps =>
    match scanOpt p message.toList with
    | some (amountStr, tillNumber) =>
      if tillNumber = correctTillNumber then
        some ⟨parseRoundAmount amountStr, extractPhoneNumber message, true⟩
      else extractLoop message ps
    | none => extractLoop message ps

/-- `MessageProcessor.extractPaymentInfo`. -/
def extractPaymentInfo (message : String) : Option MpesMessageInfo :=
  if message = "" then none
  else extractLoop message mpesaPatterns

/-! ## Concrete sample data used by witnesses and counterexamples -/

/-- A free tier (price 0), as in the plan configuration. -/
def freePlan : SurveyPlan := ⟨"Free", 0⟩

/-- The 250-shilling tier. -/
def silverPlan : SurveyPlan := ⟨"Silver", 250⟩

/-- The 500-shilling tier. -/
def goldPlan : SurveyPlan := ⟨"Gold", 500⟩

/-- The 1000-shilling tier. -/
def platinumPlan : SurveyPlan := ⟨"Platinum", 1000⟩

/-- A concrete tier list shaped like the plan configuration
(`tiers = [0, 250, 500, 1000]` in the spec's scenarios). -/
def samplePlans : List SurveyPlan := [freePlan, silverPlan, goldPlan, platinumPlan]

/-- A pasted message on which template 1 matches textually with the wrong
till number while template 2 later matches with the expected one. -/
def c1Message : String := "Ksh500 sent to Till Number 1 Ksh500 paid to 3566188"

/-- The spec's verification-form scenario message, extended with the
merchant marker text. -/
def c5Message : String :=
  "Confirmed. Ksh250.00 sent to Till Number 3566188 on 1/1/24 10:15 AM VEDACOM 4 SOLUTIONS"

/-! ## Helper lemmas about the plan resolver -/

lemma mem_sortedPaidPlans {plans : List SurveyPlan} {x : SurveyPlan} :
    x ∈ sortedPaidPlans plans ↔ x ∈ plans ∧ 0 < x.price := by
  unfold sortedPaidPlans
  rw [(List.perm_insertionSort priceLE _).mem_iff, List.mem_filter]
  simp

lemma sorted_sortedPaidPlans (plans : List SurveyPlan) :
    List.Sorted priceLE (sortedPaidPlans plans) :=
  List.sorted_insertionSort priceLE _

lemma getLast?_mem {α : Type} : ∀ {l : List α} {t : α}, l.getLast? = some t → t ∈ l
  | [], _, h => by simp at h
  | [a], t, h => by
      simp at h
      subst h
      exact List.mem_cons_self _ _
  | a :: b :: l, t, h => by
      rw [List.getLast?_cons_cons] at h
      exact List.mem_cons_of_mem a (getLast?_mem h)

lemma getLast?_isSome_of_ne_nil {α : Type} {l : List α} (h : l ≠ []) :
    ∃ t, l.getLast? = some t := by
  cases l with
  | nil => exact absurd rfl h
  | cons a l =>
    cases hl : (a :: l).getLast? with
    | some t => exact ⟨t, rfl⟩
    | none => simp at hl

lemma find?_ge_of_find?_eq {l : List SurveyPlan} (hs : List.Sorted priceLE l)
    {a : Rat} {t : SurveyPlan}
    (h : l.find? (fun p => decide (p.price = a)) = some t) :
    l.find? (fun p => decide (a ≤ p.price)) = some t := by
  induction l with
  | nil => simp at h
  | cons q l ih =>
    by_cases hq : q.price = a
    · rw [List.find?_cons_of_pos _ (by simp [hq])] at h
      injection h with h
      subst h
      exact List.find?_cons_of_pos _ (by simp [hq])
    · rw [List.find?_cons_of_neg _ (by simp [hq])] at h
      have hta : t.price = a := by simpa using List.find?_some h
      have htl : t ∈ l := List.mem_of_find?_eq_some h
      have hqt : q.price ≤ t.price := List.rel_of_sorted_cons hs t htl
      have hnle : ¬ a ≤ q.price := by
        intro hle
        exact hq (le_antisymm (hta ▸ hqt) hle)
      rw [List.find?_cons_of_neg _ (by simpa using hnle)]
      exact ih hs.of_cons h

lemma getPlanByAmount_eq (a : Rat) (plans : List SurveyPlan) :
    getPlanByAmount a plans =
      match (sortedPaidPlans plans).find? (fun p => decide (a ≤ p.price)) with
      | some t => some t
      | none => (sortedPaidPlans plans).getLast? := by
  cases he : (sortedPaidPlans plans).find? (fun p => decide (p.price = a)) with
  | some t =>
    have hge := find?_ge_of_find?_eq (sorted_sortedPaidPlans plans) he
    simp [getPlanByAmount, he, hge]
  | none => simp [getPlanByAmount, he]

lemma find?_le_min {l : List SurveyPlan} (hs : List.Sorted priceLE l)
    {a : Rat} {x : SurveyPlan}
    (h : l.find? (fun p => decide (a ≤ p.price)) = some x) :
    ∀ y ∈ l, a ≤ y.price → x.price ≤ y.price := by
  induction l with
  | nil => simp at h
  | cons q l ih =>
    by_cases hq : a ≤ q.price
    · rw [List.find?_cons_of_pos _ (by simpa using hq)] at h
      injection h with h
      subst h
      intro y hy _
      rcases List.mem_cons.mp hy with rfl | hyl
      · exact le_refl _
      · exact List.rel_of_sorted_cons hs y hyl
    · rw [List.find?_cons_of_neg _ (by simpa using hq)] at h
      intro y hy hay
      rcases List.mem_cons.mp hy with rfl | hyl
      · exact absurd hay hq
      · exact ih hs.of_cons h y hyl hay

lemma sorted_le_getLast : ∀ {l : List SurveyPlan}, List.Sorted priceLE l →
    ∀ {x t : SurveyPlan}, x ∈ l → l.getLast? = some t → x.price ≤ t.price
  | [], _, _, _, hx, _ => by cases hx
  | [q], _, x, t, hx, ht => by
      simp at hx ht
      subst hx
      subst ht
      exact le_refl _
  | q :: r :: l, hs, x, t, hx, ht => by
      rw [List.getLast?_cons_cons] at ht
      rcases List.mem_cons.mp hx with rfl | hxl
      · exact List.rel_of_sorted_cons hs t (getLast?_mem ht)
      · exact sorted_le_getLast hs.of_cons hxl ht

lemma getPlanByAmount_exact {tiers : List SurveyPlan} {amount : Rat}
    (h : ∃ t ∈ tiers, 0 < t.price ∧ t.price = amount) :
    ∃ t, getPlanByAmount amount tiers = some t ∧ t.price = amount := by
  obtain ⟨t, htm, htp, hta⟩ := h
  have htm' : t ∈ sortedPaidPlans tiers := mem_sortedPaidPlans.mpr ⟨htm, htp⟩
  have hsome : ((sortedPaidPlans tiers).find? (fun p => decide (p.price = amount))).isSome :=
    List.find?_isSome.mpr ⟨t, htm', by simp [hta]⟩
  obtain ⟨x, hx⟩ := Option.isSome_iff_exists.mp hsome
  refine ⟨x, ?_, by simpa using List.find?_some hx⟩
  simp [getPlanByAmount, hx]

/-! ## Claim C2: getPlanByAmount agrees with the spec's resolution algorithm -/

/-- C2 (confirmed): for every amount and every tier list, `getPlanByAmount`
implements exactly the spec's resolution algorithm (`resolveByAmountSpec`:
restrict to positive-priced tiers sorted ascending, exact price match first,
else first tier with price at least the amount, else the highest-priced paid
tier), and it returns `none` exactly when no tier has positive price. -/
theorem getPlanByAmount_matches_spec (amount : Rat) (tiers : List SurveyPlan) :
    getPlanByAmount amount tiers = resolveByAmountSpec amount tiers ∧
    (getPlanByAmount amount tiers = none ↔ ∀ t ∈ tiers, ¬ 0 < t.price) := by
  constructor
  · show getPlanByAmount amount tiers = resolveByAmountSpec amount tiers
    unfold getPlanByAmount resolveByAmountSpec sortedPaidPlans
    cases hp : List.insertionSort priceLE (tiers.filter fun t => decide (0 < t.price)) with
    | nil => simp [hp]
    | cons q l => simp [hp]
  · rw [getPlanByAmount_eq]
    constructor
    · intro h t htm htp
      have htm' : t ∈ sortedPaidPlans tiers := mem_sortedPaidPlans.mpr ⟨htm, htp⟩
      cases hf : (sortedPaidPlans tiers).find? (fun p => decide (amount ≤ p.price)) with
      | some x => rw [hf] at h; exact absurd h (by simp)
      | none =>
        rw [hf] at h
        have hne : sortedPaidPlans tiers ≠ [] := by
          intro hnil
          rw [hnil] at htm'
          cases htm'
        obtain ⟨tl, htl⟩ := getLast?_isSome_of_ne_nil hne
        rw [htl] at h
        cases h
    · intro hall
      have hnil : sortedPaidPlans tiers = [] := by
        cases hc : sortedPaidPlans tiers with
        | nil => rfl
        | cons q l =>
          have hq : q ∈ sortedPaidPlans tiers := by
            rw [hc]
            exact List.mem_cons_self _ _
          have := mem_sortedPaidPlans.mp hq
          exact absurd this.2 (hall q this.1)
      simp [hnil]

/-- Closed witness for C2: the equivalence at the scenario input, and the
absent case on a tier list with no positive price. -/
theorem getPlanByAmount_matches_spec_witness :
    getPlanByAmount 300 samplePlans = resolveByAmountSpec 300 samplePlans ∧
    getPlanByAmount 100 [freePlan] = none :=
  ⟨(getPlanByAmount_matches_spec 300 samplePlans).1,
   (getPlanByAmount_matches_spec 100 [freePlan]).2.mpr (by decide)⟩

/-! ## Claim C6: monotonicity of the plan resolver -/

/-- C6 (confirmed): for a fixed tier list, the resolved tier's price is
monotone in the amount; when the larger amount exceeds every paid price both
amounts can resolve to the top tier, which still satisfies the inequality. -/
theorem getPlanByAmount_monotone (tiers : List SurveyPlan) (a₁ a₂ : Rat)
    (h12 : a₁ < a₂) (t₁ t₂ : SurveyPlan)
    (h₁ : getPlanByAmount a₁ tiers = some t₁)
    (h₂ : getPlanByAmount a₂ tiers = some t₂) :
    t₁.price ≤ t₂.price := by
  rw [getPlanByAmount_eq] at h₁ h₂
  have hs := sorted_sortedPaidPlans tiers
  cases hf₁ : (sortedPaidPlans tiers).find? (fun p => decide (a₁ ≤ p.price)) with
  | some x₁ =>
    rw [hf₁] at h₁
    injection h₁ with h₁
    subst h₁
    cases hf₂ : (sortedPaidPlans tiers).find? (fun p => decide (a₂ ≤ p.price)) with
    | some x₂ =>
      rw [hf₂] at h₂
      injection h₂ with h₂
      subst h₂
      have hx₂mem := List.mem_of_find?_eq_some hf₂
      have hx₂p : a₂ ≤ x₂.price := by simpa using List.find?_some hf₂
      exact find?_le_min hs hf₁ x₂ hx₂mem (le_trans (le_of_lt h12) hx₂p)
    | none =>
      rw [hf₂] at h₂
      exact sorted_le_getLast hs (List.mem_of_find?_eq_some hf₁) h₂
  | none =>
    rw [hf₁] at h₁
    cases hf₂ : (sortedPaidPlans tiers).find? (fun p => decide (a₂ ≤ p.price)) with
    | some x₂ =>
      have hx₂mem := List.mem_of_find?_eq_some hf₂
      have hx₂p : a₂ ≤ x₂.price := by simpa using List.find?_some hf₂
      have hnone := List.find?_eq_none.mp hf₁ x₂ hx₂mem
      exact absurd (le_trans (le_of_lt h12) hx₂p) (by simpa using hnone)
    | none =>
      rw [hf₂] at h₂
      have := h₁.symm.trans h₂
      injection this with h
      subst h
      exact le_refl _

/-- Closed witness for C6: amounts 300 and 600 resolve to the 500 and 1000
tiers respectively. -/
theorem getPlanByAmount_monotone_witness : goldPlan.price ≤ platinumPlan.price :=
  getPlanByAmount_monotone samplePlans 300 600 (by decide) goldPlan platinumPlan
    (by decide) (by decide)

/-! ## Claim C10: totality and positivity of the plan resolver on paid tiers -/

/-- C10 (confirmed): whenever some tier has positive price, `getPlanByAmount`
returns a paid (positive-price) tier for every amount, and for every amount
at most the minimum paid price (so in particular every non-positive amount)
it returns the lowest-priced paid tier (the head of the ascending paid
list). -/
theorem getPlanByAmount_paid_total (tiers : List SurveyPlan) (t₀ : SurveyPlan)
    (h₀ : t₀ ∈ tiers) (hp₀ : 0 < t₀.price) (amount : Rat) :
    (∃ t, getPlanByAmount amount tiers = some t ∧ 0 < t.price) ∧
    (∀ th, (sortedPaidPlans tiers).head? = some th → amount ≤ th.price →
      getPlanByAmount amount tiers = some th) := by
  have ht₀ : t₀ ∈ sortedPaidPlans tiers := mem_sortedPaidPlans.mpr ⟨h₀, hp₀⟩
  constructor
  · rw [getPlanByAmount_eq]
    cases hf : (sortedPaidPlans tiers).find? (fun p => decide (amount ≤ p.price)) with
    | some x =>
      exact ⟨x, by simp,
        (mem_sortedPaidPlans.mp (List.mem_of_find?_eq_some hf)).2⟩
    | none =>
      have hne : sortedPaidPlans tiers ≠ [] := by
        intro hnil
        rw [hnil] at ht₀
        cases ht₀
      obtain ⟨tl, htl⟩ := getLast?_isSome_of_ne_nil hne
      exact ⟨tl, by simp [htl], (mem_sortedPaidPlans.mp (getLast?_mem htl)).2⟩
  · intro th hth hle
    rw [getPlanByAmount_eq]
    cases hc : sortedPaidPlans tiers with
    | nil =>
      rw [hc] at hth
      cases hth
    | cons q rest =>
      rw [hc] at hth
      simp only [List.head?] at hth
      injection hth with hth
      subst hth
      have hfind : (q :: rest).find? (fun p => decide (amount ≤ p.price)) = some q :=
        List.find?_cons_of_pos _ (by simpa using hle)
      simp [hfind]

/-- Closed witness for C10: the negative amount -5 resolves to the
lowest-priced paid tier of the sample list. -/
theorem getPlanByAmount_paid_total_witness :
    getPlanByAmount (-5) samplePlans = some silverPlan :=
  (getPlanByAmount_paid_total samplePlans silverPlan (by decide) (by decide) (-5)).2
    silverPlan (by decide) (by decide)

/-! ## Claim C5: the verification-form scenario -/

/-- C5 counterexample: on the scenario message the extraction is valid, but
the captured amount string is "250.00" — the regex capture
`([\d,]+\.?\d*)` retains the optional fraction — not "250" as claimed. -/
theorem verifyMessage_amount_cex :
    (verifyMessage c5Message).isValid = true ∧
    (verifyMessage c5Message).details.amount = some "250.00" ∧
    some ("250.00" : String) ≠ some ("250" : String) := by
  refine ⟨by decide, by decide, by decide⟩

/-- C5 (corrected): on the scenario message `verifyMessage` is valid with
extracted amount string "250.00" (not "250": the capture keeps the
two-decimal fraction), and `getPlanByAmount 250` returns a tier priced
exactly 250 whenever the tier list contains a paid tier with that price. -/
theorem verifyMessage_amount_scenario (tiers : List SurveyPlan)
    (h : ∃ t ∈ tiers, 0 < t.price ∧ t.price = 250) :
    (verifyMessage c5Message).isValid = true ∧
    (verifyMessage c5Message).details.amount = some "250.00" ∧
    ∃ t, getPlanByAmount 250 tiers = some t ∧ t.price = 250 :=
  ⟨by decide, by decide, getPlanByAmount_exact h⟩

/-- Closed witness for C5: the sample tier list contains a 250-priced tier,
and resolution at 250 yields a tier priced 250. -/
theorem verifyMessage_amount_scenario_witness :
    ∃ t, getPlanByAmount 250 samplePlans = some t ∧ t.price = 250 :=
  (verifyMessage_amount_scenario samplePlans ⟨silverPlan, by decide, by decide, rfl⟩).2.2

/-! ## Claim C1: the till-number gate of the auto-detect extractor -/

lemma extractLoop_eq_none_iff (message : String)
    (ps : List (List Char → Option (String × String))) :
    extractLoop message ps = none ↔
      ∀ p ∈ ps, ∀ a, scanOpt p message.toList ≠ some (a, correctTillNumber) := by
  induction ps with
  | nil => simp [extractLoop]
  | cons p ps ih =>
    cases hscan : scanOpt p message.toList with
    | none =>
      simp only [extractLoop, hscan]
      rw [ih]
      constructor
      · intro h p' hp' a
        rcases List.mem_cons.mp hp' with rfl | hp'
        · rw [hscan]
          simp
        · exact h p' hp' a
      · intro h p' hp' a
        exact h p' (List.mem_cons_of_mem _ hp') a
    | some pr =>
      obtain ⟨a₀, t₀⟩ := pr
      by_cases ht : t₀ = correctTillNumber
      · subst ht
        simp only [extractLoop, hscan, if_pos rfl]
        constructor
        · intro h
          cases h
        · intro h
          exact absurd hscan (h p (List.mem_cons_self _ _) a₀)
      · simp only [extractLoop, hscan, if_neg ht]
        rw [ih]
        constructor
        · intro h p' hp' a
          rcases List.mem_cons.mp hp' with rfl | hp'
          · rw [hscan]
            simp only [ne_eq, Option.some.injEq, Prod.mk.injEq, not_and]
            intro _
            exact ht
          · exact h p' hp' a
        · intro h p' hp' a
          exact h p' (List.mem_cons_of_mem _ hp') a

lemma extractLoop_isValid (message : String)
    (ps : List (List Char → Option (String × String))) (info : MpesMessageInfo) :
    extractLoop message ps = some info → info.isValid = true := by
  induction ps with
  | nil =>
    intro h
    simp [extractLoop] at h
  | cons p ps ih =>
    intro h
    cases hscan : scanOpt p message.toList with
    | none =>
      simp only [extractLoop, hscan] at h
      exact ih h
    | some pr =>
      obtain ⟨a₀, t₀⟩ := pr
      simp only [extractLoop, hscan] at h
      by_cases ht : t₀ = correctTillNumber
      · rw [if_pos ht] at h
        injection h with h
        subst h
        rfl
      · rw [if_neg ht] at h
        exact ih h

/-- C1 counterexample: on `c1Message` the first template matches textually
with till number "1", different from the expected "3566188", yet the whole
extraction does not return absent: the loop falls through to template 2,
which matches with the expected till number, and extraction succeeds. -/
theorem extractPaymentInfo_first_template_cex :
    scanOpt pattern1At c1Message.toList = some ("500", "1") ∧
    ("1" : String) ≠ correctTillNumber ∧
    extractPaymentInfo c1Message = some ⟨500, "Unknown", true⟩ := by
  refine ⟨by decide, by decide, by decide⟩

/-- C1 (corrected): `extractPaymentInfo` tries the four templates in order,
but a template whose captured till number differs from the expected
"3566188" does not end the extraction — later templates are still tried.
The extraction returns absent exactly when no template matches with the
expected till number, and any successful extraction is marked valid. -/
theorem extractPaymentInfo_till_gate (message : String) :
    (extractPaymentInfo message = none ↔
      ∀ p ∈ mpesaPatterns, ∀ a, scanOpt p message.toList ≠ some (a, correctTillNumber)) ∧
    (∀ info, extractPaymentInfo message = some info → info.isValid = true) := by
  by_cases hm : message = ""
  · subst hm
    constructor
    · simp only [extractPaymentInfo, if_pos rfl]
      constructor
      · intro _ p hp a
        have h1 : scanOpt pattern1At ([] : List Char) = none := by decide
        have h2 : scanOpt pattern2At ([] : List Char) = none := by decide
        have h3 : scanOpt pattern3At ([] : List Char) = none := by decide
        have h4 : scanOpt pattern4At ([] : List Char) = none := by decide
        simp only [mpesaPatterns, List.mem_cons] at hp
        rcases hp with rfl | rfl | rfl | rfl | hp
        · simp [h1]
        · simp [h2]
        · simp [h3]
        · simp [h4]
        · exact absurd hp (List.not_mem_nil p)
      · intro _
        rfl
    · intro info h
      rw [extractPaymentInfo, if_pos rfl] at h
      cases h
  · rw [show extractPaymentInfo message = extractLoop message mpesaPatterns from by
        rw [extractPaymentInfo, if_neg hm]]
    exact ⟨extractLoop_eq_none_iff message mpesaPatterns,
      fun info h => extractLoop_isValid message mpesaPatterns info h⟩

/-- Closed witness for C1: on `c1Message` some template matches with the
expected till number and the extraction succeeds with a valid result. -/
theorem extractPaymentInfo_till_gate_witness :
    ∃ info, extractPaymentInfo c1Message = some info ∧ info.isValid = true :=
  ⟨⟨500, "Unknown", true⟩, by decide,
    (extractPaymentInfo_till_gate c1Message).2 ⟨500, "Unknown", true⟩ (by decide)⟩

/-! ## Claim C3: the merchant-marker gate of verifyMessage -/

/-- C3 (confirmed): a message without the merchant marker
(case-insensitively; the empty message never contains it) is rejected with
no field extraction, and a message with the marker is accepted with the
extracted fields attached — the extraction result is whatever
`extractMessageDetails` yields, so an absent field never causes failure. -/
theorem verifyMessage_marker_gate (message : String) :
    (containsMarker message = false →
      (verifyMessage message).isValid = false ∧
      (verifyMessage message).details = ⟨false, none, none, none, none⟩) ∧
    (containsMarker message = true →
      verifyMessage message =
        ⟨true, "Payment message verified successfully", extractMessageDetails message⟩) := by
  constructor
  · intro h
    by_cases hm : message = ""
    · subst hm
      exact ⟨rfl, rfl⟩
    · rw [verifyMessage, if_neg hm, if_neg (by simp [h])]
      exact ⟨rfl, rfl⟩
  · intro h
    have hm : message ≠ "" := by
      intro he
      subst he
      have : containsMarker "" = false := by decide
      rw [this] at h
      cases h
    rw [verifyMessage, if_neg hm, if_pos h]

/-- Closed witness for C3: a marker-free message is rejected, and the
scenario message (which carries the marker) is accepted with its extracted
details. -/
theorem verifyMessage_marker_gate_witness :
    (verifyMessage "hello world").isValid = false ∧
    verifyMessage c5Message =
      ⟨true, "Payment message verified successfully", extractMessageDetails c5Message⟩ :=
  ⟨((verifyMessage_marker_gate "hello world").1 (by decide)).1,
   (verifyMessage_marker_gate c5Message).2 (by decide)⟩

/-! ## Claim C9: validity flag equals the marker flag -/

/-- C9 (confirmed): in every return branch of `verifyMessage`, the top-level
validity flag equals the marker-presence flag stored in the details. -/
theorem verifyMessage_isValid_eq_marker_flag (message : String) :
    (verifyMessage message).isValid = (verifyMessage message).details.containsRequiredText := by
  by_cases hm : message = ""
  · subst hm
    rfl
  · by_cases hc : containsMarker message
    · rw [verifyMessage, if_neg hm, if_pos hc]
      rfl
    · rw [verifyMessage, if_neg hm, if_neg hc]

/-! ## Claim C4: same-tier transitions -/

/-- C4 counterexample: a same-name transition for a name that is not among
the tiers is rejected ("Invalid plan selection"), so `validateTransition(X,
X, tiers)` does not succeed for every name and tier list. -/
theorem validateUpgrade_self_unknown_cex :
    (validateUpgrade "Gold" "Gold" [silverPlan]).isValid = false := by decide

/-- C4 (corrected): the no-op transition to the same tier succeeds whenever
the name resolves to a tier of the list; for a name that resolves to no
tier, the lookup guard rejects it with "Invalid plan selection". -/
theorem validateUpgrade_self_of_known (x : String) (tiers : List SurveyPlan)
    (h : ∃ t ∈ tiers, t.planName = x) :
    validateUpgrade x x tiers = ⟨true, "Upgrade validated successfully"⟩ := by
  have hsome : (tiers.find? (fun p => p.planName == x)).isSome := by
    obtain ⟨t, htm, htn⟩ := h
    exact List.find?_isSome.mpr ⟨t, htm, by simp [htn]⟩
  obtain ⟨t, ht⟩ := Option.isSome_iff_exists.mp hsome
  rw [validateUpgrade, ht]
  simp [lt_irrefl]

/-- Closed witness for C4: the same-tier transition succeeds for a name
present in the sample tiers. -/
theorem validateUpgrade_self_of_known_witness :
    validateUpgrade "Silver" "Silver" samplePlans =
      ⟨true, "Upgrade validated successfully"⟩ :=
  validateUpgrade_self_of_known "Silver" samplePlans ⟨silverPlan, by decide, rfl⟩

/-! ## Claim C7: downgrade rejection -/

/-- C7 (confirmed): when both names resolve to tiers, the validation fails
with the downgrade reason exactly when the target price is strictly below
the current price, and otherwise succeeds — so a low-to-high transition
succeeds while the reversed arguments fail with the downgrade reason.  The
embedded `validateUpgrade` is a pure function, so no state is mutated on
rejection. -/
theorem validateUpgrade_downgrade_iff (currentName targetName : String)
    (tiers : List SurveyPlan) (tc tt : SurveyPlan)
    (hc : tiers.find? (fun p => p.planName == currentName) = some tc)
    (ht : tiers.find? (fun p => p.planName == targetName) = some tt) :
    (validateUpgrade currentName targetName tiers =
        ⟨false, "Cannot downgrade to a lower plan"⟩ ↔ tt.price < tc.price) ∧
    (¬ tt.price < tc.price →
      validateUpgrade currentName targetName tiers =
        ⟨true, "Upgrade validated successfully"⟩) := by
  rw [validateUpgrade, hc, ht]
  by_cases hlt : tt.price < tc.price
  · simp [hlt]
  · simp [hlt]

/-- Closed witness for C7: low-to-high succeeds on the sample tiers and the
reversed arguments fail with the downgrade reason. -/
theorem validateUpgrade_downgrade_iff_witness :
    validateUpgrade "Silver" "Gold" samplePlans =
      ⟨true, "Upgrade validated successfully"⟩ ∧
    validateUpgrade "Gold" "Silver" samplePlans =
      ⟨false, "Cannot downgrade to a lower plan"⟩ :=
  ⟨(validateUpgrade_downgrade_iff "Silver" "Gold" samplePlans silverPlan goldPlan
      (by decide) (by decide)).2 (by decide),
   (validateUpgrade_downgrade_iff "Gold" "Silver" samplePlans goldPlan silverPlan
      (by decide) (by decide)).1.mpr (by decide)⟩

/-! ## Claim C8: top-level catch of the upgrade orchestration -/

/-- C8 (confirmed): `processPlanUpgrade` is the try-block wrapped in the
catch clause, and the catch clause converts every raised error into the
generic failure result carrying "Failed to process plan upgrade"; being a
total function of its inputs, the operation always returns a
success-or-failure record and never propagates a fault. -/
theorem processPlanUpgrade_total_catch (userId : String) (verifiedAmount : Rat)
    (availablePlans : List SurveyPlan) (e : String) :
    catchToResult (Except.error e) =
      ⟨false, "Failed to process plan upgrade", none, none⟩ ∧
    processPlanUpgrade userId verifiedAmount availablePlans =
      catchToResult (processPlanUpgradeBody userId verifiedAmount availablePlans) :=
  ⟨rfl, rfl⟩
